import Mathlib

/-!
Verification of the schema-versioned set collection (RedisSet.js) of the
redis-tance repository, via a shallow embedding.

Modelling conventions:
- Documents are records with the fields the JS code reads and writes
  (`id`, `type`, `version`) plus an abstract payload; JS in-place mutation
  of a document (metadata stamping in `prepare`) is modelled by returning
  the updated record.
- The redis client (`tance`) is modelled by the list of store commands an
  operation issues (`Cmd`), plus, where an operation reads or writes the
  members of its own key, an explicit `List String` of serialized members
  threaded in and out. The `tance == null` constructor guard is not
  modelled: every operation below is on a constructed handle, which always
  holds a client.
- JS exceptions become `Except TanceError`; an operation that throws during
  argument evaluation (before a client call) returns an empty command list.
- Error message texts follow the source but avoid apostrophes.
- The Schema / MigratingSchema (Skeema) implementation is not part of the
  provided sources (only its tests and its callers are); where a claim
  depends on it, the definitions below are modelled from the spec and are
  marked as such.
-/

namespace RedisTance

/-- Errors of lib/Errors plus the plain JS Error used by `onion`. -/
inductive TanceError where
  | documentValidationError (msg : String)
  | crossSlotError (msg : String)
  | jsError (msg : String)
  deriving DecidableEq, Repr

/-- The redis commands RedisSet.js issues through the tance client. -/
inductive Cmd where
  | sadd (key : String) (members : List String)
  | smembers (key : String)
  | srandmember (key : String) (n : Nat)
  | srem (key : String) (member : String)
  | sismember (key : String) (member : String)
  | scard (key : String)
  | sunion (keys : List String)
  | sunionstore (dest : String) (keys : List String)
  | sinter (keys : List String)
  | sinterstore (dest : String) (keys : List String)
  | sdiff (keys : List String)
  | sdiffstore (dest : String) (keys : List String)
  | del (key : String)
  | expire (key : String) (seconds : Nat)
  deriving DecidableEq, Repr

/-- A document: the metadata fields RedisSet.js touches (`doc.id`,
`doc.type`, `doc.version`) plus an abstract payload. A null or missing
`doc.id` is modelled as the empty string, matching the source check
`doc.id == null || doc.id === ""`, whose two branches act identically. -/
structure Doc (α : Type) where
  id : String
  type : String
  version : Nat
  payload : α
  deriving DecidableEq, Repr

/-- Modelled from the spec: one entry of the schema chain (a SchemaVersion
of the Skeema implementation, which is not among the provided sources):
a schema definition, used only for validation, and the upgrade function
from the previous version. -/
structure SchemaVersion (α : Type) where
  definition : Doc α → Bool
  upgradeFn : Doc α → Doc α

/-- Modelled from the spec: the ordered schema chain ("Skeema"); version
numbers are the 1-based positions in `versions`, and `currentVersion` is
the length of the chain. -/
structure Skeema (α : Type) where
  versions : List (SchemaVersion α)

/-- Modelled from the spec: one upgrade step. For a document at version
`v < n` it applies the upgrade function of version `v+1` (stored 0-indexed
at position `v`) and stamps the new version number on the result. -/
def upgradeStep (k : Skeema α) (d : Doc α) : Doc α :=
  match k.versions[d.version]? with
  | some sv => { sv.upgradeFn d with version := d.version + 1 }
  | none => d

/-- Fuel-indexed iteration of `upgradeStep`, stopping once the document
version has reached the length of the chain. -/
def upgradeFuel (k : Skeema α) : Nat → Doc α → Doc α
  | 0, d => d
  | fuel + 1, d =>
    if d.version < k.versions.length then upgradeFuel k fuel (upgradeStep k d)
    else d

/-- Modelled from the spec: `upgrade(doc)` repeatedly applies the upgrade
function of `doc.version+1, +2, ...` up to `currentVersion`, stamping the
version after each step. The fuel `length - version` suffices because each
step increases the version by one. -/
def skeemaUpgrade (k : Skeema α) (d : Doc α) : Doc α :=
  upgradeFuel k (k.versions.length - d.version) d

/-- The spec wording of upgrade, for comparison: sequentially apply the
upgrade functions of versions `v+1` through `n` (the chain entries after
position `v`), stamping the version at each step. -/
def specSequentialUpgrade (k : Skeema α) (d : Doc α) : Doc α :=
  (k.versions.drop d.version).foldl
    (fun acc sv => { sv.upgradeFn acc with version := acc.version + 1 }) d

/-- Modelled from the spec: a document is valid at its own declared version
when the definition at that (1-based) version accepts it. -/
def isValidAtVersion (k : Skeema α) (d : Doc α) : Bool :=
  match k.versions[d.version - 1]? with
  | some sv => sv.definition d
  | none => false

/-- The schema interface RedisSet.js consumes: `schema.type`,
`schema.constructor.name === "MigratingSchema"` (the `isMigrating` flag),
`schema.currentVersion`, `schema.isValid`, `schema.errors`,
`schema.serializationFn`, `schema.deserializationFn`, `schema.upgrade`. -/
structure SchemaModel (α : Type) where
  type : String
  isMigrating : Bool
  currentVersion : Nat
  isValid : Doc α → Bool
  errors : Doc α → String
  serializationFn : Doc α → String
  deserializationFn : String → Doc α
  upgrade : Doc α → Doc α

/-- Modelled from the spec: `Schema.String(expirySeconds)`, the trivial
single-type schema for unstructured string members, used by the constructor
when no schema is supplied. Its implementation is not among the provided
sources; only its `type` tag (the fallback type used in key construction)
is observable through the claims below, so the remaining fields are the
trivial choices for an unconstrained non-versioned schema. -/
def schemaString [Inhabited α] (_expirySeconds : Option Nat) : SchemaModel α :=
  { type := "string"
    isMigrating := false
    currentVersion := 1
    isValid := fun _ => true
    errors := fun _ => ""
    serializationFn := fun _ => ""
    deserializationFn := fun _ => { id := "", type := "string", version := 1, payload := default }
    upgrade := fun d => d }

/-- A constructed RedisSet handle: the four fields the methods read. -/
structure RedisSet (α : Type) where
  id : String
  schema : SchemaModel α
  «namespace» : String
  expirySeconds : Option Nat

/-- The constructor argument object `{tance, id, schema, namespace,
expirySeconds}`; `none` models an absent (undefined/null) argument. The
`tance` field is omitted: constructing with a null client throws and no
claim concerns that guard. -/
structure CtorArgs (α : Type) where
  id : Option String := none
  schema : Option (SchemaModel α) := none
  «namespace» : Option String := none
  expirySeconds : Option Nat := none

/-- Lower-casing of a string, character by character (the semantics of
`toLowerCase()` on the ASCII type names at hand), defined structurally over
the character list so concrete keys evaluate inside proofs. -/
def strToLower (s : String) : String :=
  ⟨s.data.map Char.toLower⟩

/-- The first `n` characters of a string (`slice(0, n)`), defined
structurally over the character list. -/
def strTake (s : String) (n : Nat) : String :=
  ⟨s.data.take n⟩

/-- `newKey()`: reads `this.schema` and `this.namespace` (modelled nullable
exactly as the method checks them), producing
`set-{<type>-<namespace>}-<uuid>`. The uuid is threaded as the
parameter `u`. The `"string"` and `"default"` fallbacks are the literal
source fallbacks for a null schema or namespace field. -/
def newKey (schema : Option (SchemaModel α)) (nspace : Option String) (u : String) : String :=
  let type := match schema with
    | none => "string"
    | some s => strTake (strToLower s.type) 18
  let ns := match nspace with
    | none => "default"
    | some s => s
  "set-\x7b" ++ type ++ "-" ++ ns ++ "\x7d-" ++ u

/-- The constructor body: `this.schema = schema || Schema.String(expirySeconds)`,
`this.namespace = namespace || ""`, `this.id = id || this.newKey()` (the
empty string is the only falsy string, so `x || y` on strings is
`if x = "" then y else x`). `newKey` runs after schema and namespace are
assigned, so it sees the coalesced values. -/
def construct [Inhabited α] (args : CtorArgs α) (u : String) : RedisSet α :=
  let schema := match args.schema with
    | none => schemaString args.expirySeconds
    | some s => s
  let ns := match args.«namespace» with
    | none => ""
    | some s => s
  let id := match args.id with
    | none => newKey (some schema) (some ns) u
    | some i => if i = "" then newKey (some schema) (some ns) u else i
  { id := id, schema := schema, «namespace» := ns, expirySeconds := args.expirySeconds }

/-- `refreshExpiry()`: issues `expire(this.id, this.expirySeconds)` only
when `this.expirySeconds` is truthy (so neither absent nor zero). -/
def refreshExpiryCmds (self : RedisSet α) : List Cmd :=
  match self.expirySeconds with
  | some n => if n = 0 then [] else [Cmd.expire self.id n]
  | none => []

/-- The metadata stamping `prepare` performs in place when the schema is a
MigratingSchema: fill an empty `doc.id` with the collection id, and
overwrite `doc.type` and `doc.version` with the schema values. -/
def stampDoc (self : RedisSet α) (d : Doc α) : Doc α :=
  if self.schema.isMigrating then
    { d with
      id := if d.id = "" then self.id else d.id
      type := self.schema.type
      version := self.schema.currentVersion }
  else d

/-- The DocumentValidationError message `prepare` builds from
`this.schema.errors(doc)` (apostrophe of the source text elided). -/
def prepErrMsg (self : RedisSet α) (d : Doc α) : String :=
  "Cant create new object, schema error: " ++ self.schema.errors (stampDoc self d)

/-- `prepare(doc)`: stamp metadata when version-aware, validate the stamped
document, then serialize it. Returns both the (mutated) document and its
serialization, because the JS mutation makes both observable to callers. -/
def prepare (self : RedisSet α) (d : Doc α) : Except TanceError (Doc α × String) :=
  let d1 := stampDoc self d
  if self.schema.isValid d1 then .ok (d1, self.schema.serializationFn d1)
  else .error (.documentValidationError (prepErrMsg self d))

/-- `postpare(serializedDoc)`: null passes through; otherwise deserialize
and upgrade. -/
def postpare (self : RedisSet α) : Option String → Option (Doc α)
  | none => none
  | some s => some (self.schema.upgrade (self.schema.deserializationFn s))

/-- Every read path maps `postpare` over the (non-null) strings the store
returned: `membs.map(x => this.postpare(x))`. -/
def postpareAll (self : RedisSet α) (l : List String) : List (Option (Doc α)) :=
  l.map (fun s => postpare self (some s))

/-- The documents a `members()` call yields, at the document level (each
stored string deserialized and upgraded). -/
def membersDocs (self : RedisSet α) (membs : List String) : List (Doc α) :=
  membs.map (fun s => self.schema.upgrade (self.schema.deserializationFn s))

/-- JS `array.map(f)` where `f` may throw: left to right, first throw
aborts the whole map. Used for `doc.map(x => this.prepare(x))` and for
`setIds.map(...)` in `validateSetIds`. -/
def mapThrow (f : β → Except ε γ) : List β → Except ε (List γ)
  | [] => .ok []
  | x :: xs =>
    match f x with
    | .error e => .error e
    | .ok y =>
      match mapThrow f xs with
      | .error e => .error e
      | .ok ys => .ok (y :: ys)

/-- Redis set insertion: append each new member unless already present
(value identity; stored members are strings). -/
def insertAll [DecidableEq β] (acc : List β) (xs : List β) : List β :=
  xs.foldl (fun a x => if x ∈ a then a else a ++ [x]) acc

/-- The contents of a JS `Set` built from a list (SameValueZero dedup,
first occurrence kept). -/
def jsSetOf [DecidableEq β] (l : List β) : List β :=
  insertAll [] l

/-- The argument of `add(doc)`: null, a single document, or an iterable of
documents (the source decides by duck-typing `Symbol.iterator` and `map`;
strings and single documents fall into the single branch, arrays into the
iterable branch). -/
inductive AddInput (β : Type) where
  | nullDoc
  | one (d : β)
  | many (ds : List β)
  deriving DecidableEq, Repr

/-- The list of documents carried by an `add` input. -/
def addInputDocs : AddInput β → List β
  | .nullDoc => []
  | .one d => [d]
  | .many ds => ds

/-- `add(doc)`: throw on null; prepare each document (one batch `sadd` for
an iterable, a single-member `sadd` otherwise); refresh the TTL; return the
input documents as mutated by the stamping in `prepare`. `membs` is the
current member set of `this.id`; the updated set is returned with the
result. -/
def add (self : RedisSet α) (membs : List String) :
    AddInput (Doc α) → List Cmd × Except TanceError (List String × AddInput (Doc α))
  | .nullDoc => ([], .error (.documentValidationError "Cant create null object."))
  | .one d =>
    match prepare self d with
    | .error e => ([], .error e)
    | .ok p =>
      (Cmd.sadd self.id [p.2] :: refreshExpiryCmds self,
       .ok (insertAll membs [p.2], .one p.1))
  | .many ds =>
    match mapThrow (prepare self) ds with
    | .error e => ([], .error e)
    | .ok prepared =>
      (Cmd.sadd self.id (prepared.map (fun p => p.2)) :: refreshExpiryCmds self,
       .ok (insertAll membs (prepared.map (fun p => p.2)),
            .many (prepared.map (fun p => p.1))))

/-- `members()`: `smembers` then map `postpare`. -/
def members (self : RedisSet α) (membs : List String) :
    List Cmd × List (Option (Doc α)) :=
  ([Cmd.smembers self.id], postpareAll self membs)

/-- `randmember(n)`: `srandmember` then map `postpare`. The store chooses
the sample; it is threaded as the parameter `sample`. -/
def randmember (self : RedisSet α) (n : Nat) (sample : List String) :
    List Cmd × List (Option (Doc α)) :=
  ([Cmd.srandmember self.id n], postpareAll self sample)

/-- `rem(doc)`: prepare, `srem` the serialized member, refresh the TTL,
return the (stamped) document. -/
def rem (self : RedisSet α) (membs : List String) (d : Doc α) :
    List Cmd × Except TanceError (List String × Doc α) :=
  match prepare self d with
  | .error e => ([], .error e)
  | .ok p =>
    (Cmd.srem self.id p.2 :: refreshExpiryCmds self,
     .ok (membs.filter (fun x => x != p.2), p.1))

/-- `delete()`: `del` the backing key; the member set becomes empty. -/
def delete (self : RedisSet α) : List Cmd × List String :=
  ([Cmd.del self.id], [])

/-- `clear()`: alias for `delete()`. -/
def clear (self : RedisSet α) : List Cmd × List String :=
  delete self

/-- `contains(obj)`: prepare, then `sismember`. -/
def contains (self : RedisSet α) (membs : List String) (d : Doc α) :
    List Cmd × Except TanceError Bool :=
  match prepare self d with
  | .error e => ([], .error e)
  | .ok p => ([Cmd.sismember self.id p.2], .ok (membs.contains p.2))

/-- `has(obj)`: alias for `contains(obj)`. -/
def has (self : RedisSet α) (membs : List String) (d : Doc α) :
    List Cmd × Except TanceError Bool :=
  contains self membs d

/-- `get()`: alias for `members()`. -/
def get (self : RedisSet α) (membs : List String) :
    List Cmd × List (Option (Doc α)) :=
  members self membs

/-- `set(doc)`: alias for `add(doc)`. -/
def set (self : RedisSet α) (membs : List String) (input : AddInput (Doc α)) :
    List Cmd × Except TanceError (List String × AddInput (Doc α)) :=
  add self membs input

/-- An operand of a group operation: a raw store key (string) or another
RedisSet handle. -/
inductive SetOperand (α : Type) where
  | key (k : String)
  | set (s : RedisSet α)

/-- The CrossSlotError message for a namespace mismatch (as in the source,
which spells CROSSLOT there). -/
def crossNsMsg : String :=
  "Trying to perform a group operation (union/intersect/diff) on RedisSets from different namespaces; this would throw a CROSSLOT error on prod"

/-- The CrossSlotError message for a schema type mismatch. -/
def crossTypeMsg : String :=
  "Trying to perform a group operation (union/intersect/diff) on RedisSets from different schema types; this would throw a CROSSSLOT error on prod"

/-- One step of `validateSetIds`: strings pass through unchecked; a
collection operand must match this collection on namespace and then on
schema type, and contributes its id. -/
def checkOperand (self : RedisSet α) : SetOperand α → Except TanceError String
  | .key s => .ok s
  | .set st =>
    if st.«namespace» != self.«namespace» then .error (.crossSlotError crossNsMsg)
    else if st.schema.type != self.schema.type then .error (.crossSlotError crossTypeMsg)
    else .ok st.id

/-- Does this operand make `validateSetIds` throw? (Raw keys never do.) -/
def mismatches (self : RedisSet α) : SetOperand α → Bool
  | .key _ => false
  | .set st =>
    (st.«namespace» != self.«namespace») || (st.schema.type != self.schema.type)

/-- `validateSetIds(setIds)`: `setIds.map(...)` with the per-operand check;
the first offending operand throws. -/
def validateSetIds (self : RedisSet α) (setIds : List (SetOperand α)) :
    Except TanceError (List String) :=
  mapThrow (checkOperand self) setIds

/-- The member set SUNION over the given keys computes in the store. -/
def sunionEval (store : String → List String) (keys : List String) : List String :=
  keys.foldl (fun acc k => insertAll acc (store k)) []

/-- The member set SINTER over the given keys computes in the store. -/
def sinterEval (store : String → List String) (keys : List String) : List String :=
  match keys with
  | [] => []
  | k :: rest =>
    jsSetOf ((store k).filter (fun x => rest.all (fun k2 => (store k2).contains x)))

/-- The member set SDIFF over the given keys computes in the store. -/
def sdiffEval (store : String → List String) (keys : List String) : List String :=
  match keys with
  | [] => []
  | k :: rest =>
    jsSetOf ((store k).filter (fun x => !(rest.any (fun k2 => (store k2).contains x))))

/-- `union(...setIds)`: validate the operands (this happens while the
argument list of the client call is built, so a violation throws before any
store command is issued, hence the empty command list), then `sunion` over
this id and the validated keys, then map `postpare`. -/
def union (self : RedisSet α) (setIds : List (SetOperand α))
    (store : String → List String) :
    List Cmd × Except TanceError (List (Option (Doc α))) :=
  match validateSetIds self setIds with
  | .error e => ([], .error e)
  | .ok keys =>
    ([Cmd.sunion (self.id :: keys)],
     .ok (postpareAll self (sunionEval store (self.id :: keys))))

/-- `unionStore(...setIds)`: construct a fresh handle (same schema,
namespace and expiry, generated id, no store traffic), then validate and
`sunionstore` into it. -/
def unionStore [Inhabited α] (self : RedisSet α) (setIds : List (SetOperand α))
    (u : String) : List Cmd × Except TanceError (RedisSet α) :=
  let newSet := construct
    { id := none, schema := some self.schema, «namespace» := some self.«namespace»,
      expirySeconds := self.expirySeconds } u
  match validateSetIds self setIds with
  | .error e => ([], .error e)
  | .ok keys => ([Cmd.sunionstore newSet.id (self.id :: keys)], .ok newSet)

/-- `unionStoreAt(id, ...setIds)`: as `unionStore`, with a caller-fixed id
passed to the constructor. -/
def unionStoreAt [Inhabited α] (self : RedisSet α) (id : String)
    (setIds : List (SetOperand α)) (u : String) :
    List Cmd × Except TanceError (RedisSet α) :=
  let newSet := construct
    { id := some id, schema := some self.schema, «namespace» := some self.«namespace»,
      expirySeconds := self.expirySeconds } u
  match validateSetIds self setIds with
  | .error e => ([], .error e)
  | .ok keys => ([Cmd.sunionstore newSet.id (self.id :: keys)], .ok newSet)

/-- `intersect(...setIds)`: validate, `sinter`, map `postpare`. -/
def intersect (self : RedisSet α) (setIds : List (SetOperand α))
    (store : String → List String) :
    List Cmd × Except TanceError (List (Option (Doc α))) :=
  match validateSetIds self setIds with
  | .error e => ([], .error e)
  | .ok keys =>
    ([Cmd.sinter (self.id :: keys)],
     .ok (postpareAll self (sinterEval store (self.id :: keys))))

/-- `intersectStore(...setIds)`. -/
def intersectStore [Inhabited α] (self : RedisSet α) (setIds : List (SetOperand α))
    (u : String) : List Cmd × Except TanceError (RedisSet α) :=
  let newSet := construct
    { id := none, schema := some self.schema, «namespace» := some self.«namespace»,
      expirySeconds := self.expirySeconds } u
  match validateSetIds self setIds with
  | .error e => ([], .error e)
  | .ok keys => ([Cmd.sinterstore newSet.id (self.id :: keys)], .ok newSet)

/-- `intersectStoreAt(id, ...setIds)`. -/
def intersectStoreAt [Inhabited α] (self : RedisSet α) (id : String)
    (setIds : List (SetOperand α)) (u : String) :
    List Cmd × Except TanceError (RedisSet α) :=
  let newSet := construct
    { id := some id, schema := some self.schema, «namespace» := some self.«namespace»,
      expirySeconds := self.expirySeconds } u
  match validateSetIds self setIds with
  | .error e => ([], .error e)
  | .ok keys => ([Cmd.sinterstore newSet.id (self.id :: keys)], .ok newSet)

/-- `copyTo(id)`: construct a handle at the given id with this handle's
schema, namespace and expiry, then `sinterstore` from this set alone.
No operand validation is involved anywhere on this path, so no
CrossSlotError can arise (the function is total). -/
def copyTo [Inhabited α] (self : RedisSet α) (id : String) (u : String) :
    List Cmd × RedisSet α :=
  let newSet := construct
    { id := some id, schema := some self.schema, «namespace» := some self.«namespace»,
      expirySeconds := self.expirySeconds } u
  ([Cmd.sinterstore newSet.id [self.id]], newSet)

/-- `diff(...setIds)`: validate, `sdiff`, map `postpare`. -/
def diff (self : RedisSet α) (setIds : List (SetOperand α))
    (store : String → List String) :
    List Cmd × Except TanceError (List (Option (Doc α))) :=
  match validateSetIds self setIds with
  | .error e => ([], .error e)
  | .ok keys =>
    ([Cmd.sdiff (self.id :: keys)],
     .ok (postpareAll self (sdiffEval store (self.id :: keys))))

/-- `diffStore(...setIds)`. -/
def diffStore [Inhabited α] (self : RedisSet α) (setIds : List (SetOperand α))
    (u : String) : List Cmd × Except TanceError (RedisSet α) :=
  let newSet := construct
    { id := none, schema := some self.schema, «namespace» := some self.«namespace»,
      expirySeconds := self.expirySeconds } u
  match validateSetIds self setIds with
  | .error e => ([], .error e)
  | .ok keys => ([Cmd.sdiffstore newSet.id (self.id :: keys)], .ok newSet)

/-- `diffStoreAt(id, ...setIds)`. -/
def diffStoreAt [Inhabited α] (self : RedisSet α) (id : String)
    (setIds : List (SetOperand α)) (u : String) :
    List Cmd × Except TanceError (RedisSet α) :=
  let newSet := construct
    { id := some id, schema := some self.schema, «namespace» := some self.«namespace»,
      expirySeconds := self.expirySeconds } u
  match validateSetIds self setIds with
  | .error e => ([], .error e)
  | .ok keys => ([Cmd.sdiffstore newSet.id (self.id :: keys)], .ok newSet)

/-- `onion(...setIds)`: throws a plain Error unconditionally, touching
neither the store (no commands) nor any state. -/
def onion (self : RedisSet α) (setIds : List (SetOperand α)) :
    List Cmd × Except TanceError PUnit :=
  ([], .error (.jsError "Onion error"))

/-- Everything `modify(changeFn)` produces: the commands it issued, the
outcome of each converging `rem`/`add` call it started, the resulting
member set, and the `{original, changed}` value it resolves with. The
`outcomes` field is faithful to the source but unobserved by it: the map
callbacks `(item) => {this.rem(item)}` have block bodies and therefore
return `undefined`, not the started promise, so `Promise.all(promises)`
awaits an array of `undefined` and the call outcomes never influence
`modify`, which always resolves with `{original, changed}`. -/
structure ModifyOut (α : Type) where
  cmds : List Cmd
  outcomes : List (Except TanceError Unit)
  membs : List String
  original : List (Doc α)
  changed : List (Doc α)

/-- One converging `rem` call of `modify`: its commands, its outcome, and
the member set afterwards (unchanged if it threw before its `srem`). -/
def remOutcome (self : RedisSet α) (st : List String) (d : Doc α) :
    List Cmd × Except TanceError Unit × List String :=
  match rem self st d with
  | (c, .ok (st2, _)) => (c, .ok (), st2)
  | (c, .error e) => (c, .error e, st)

/-- One converging `add` call of `modify`. -/
def addOutcome (self : RedisSet α) (st : List String) (d : Doc α) :
    List Cmd × Except TanceError Unit × List String :=
  match add self st (.one d) with
  | (c, .ok (st2, _)) => (c, .ok (), st2)
  | (c, .error e) => (c, .error e, st)

/-- Runs one converging call per item, left to right, accumulating
commands and outcomes and threading the member set. -/
def convergeAll (f : List String → Doc α → List Cmd × Except TanceError Unit × List String)
    (st : List String) (items : List (Doc α)) :
    List Cmd × List (Except TanceError Unit) × List String :=
  items.foldl
    (fun acc d =>
      let r := f acc.2.2 d
      (acc.1 ++ r.1, acc.2.1 ++ [r.2.1], r.2.2))
    ([], [], st)

/-- `modify(changeFn)`: snapshot the members, build the original set and a
deep-copied working set (`JSON.parse(JSON.stringify(list))`; with the value
semantics of this model the copy equals the original, which matches the JS
behavior for string members, the case in which the JS `Set` membership
used below compares contents rather than object references), apply
`changeFn`, compute the two difference lists, start a `rem` per item only
in the original set and an `add` per item only in the new set, refresh the
TTL, and resolve with `{original, changed}`. The started call outcomes are
collected in `outcomes` but, exactly as in the source, do not affect the
resolution. -/
def modify [DecidableEq α] (self : RedisSet α) (membs : List String)
    (changeFn : List (Doc α) → List (Doc α)) : ModifyOut α :=
  let list := membersDocs self membs
  let copyList := list
  let originalSet := jsSetOf list
  let workingSet := jsSetOf copyList
  let newSet := jsSetOf (changeFn workingSet)
  let itemsToRemove := originalSet.filter (fun x => decide (¬ x ∈ newSet))
  let itemsToAdd := newSet.filter (fun x => decide (¬ x ∈ originalSet))
  let rems := convergeAll (remOutcome self) membs itemsToRemove
  let adds := convergeAll (addOutcome self) rems.2.2 itemsToAdd
  { cmds := Cmd.smembers self.id :: (rems.1 ++ adds.1 ++ refreshExpiryCmds self)
    outcomes := rems.2.1 ++ adds.2.1
    membs := adds.2.2
    original := originalSet
    changed := newSet }

/-- Concrete fixture: a non-versioned schema with a capitalized type name,
for exercising the key derivation. -/
def empSchema : SchemaModel Nat :=
  { type := "Employee"
    isMigrating := false
    currentVersion := 1
    isValid := fun _ => true
    errors := fun _ => ""
    serializationFn := fun d => toString d.payload
    deserializationFn := fun s => { id := "", type := "Employee", version := 1, payload := s.length }
    upgrade := fun d => d }

/-- Concrete fixture: a version-aware (MigratingSchema) schema at current
version 2 that accepts every document. -/
def migSchema : SchemaModel Nat :=
  { type := "employee"
    isMigrating := true
    currentVersion := 2
    isValid := fun _ => true
    errors := fun _ => ""
    serializationFn := fun d => toString d.payload ++ ":" ++ toString d.version
    deserializationFn := fun s => { id := "", type := "employee", version := 1, payload := s.length }
    upgrade := fun d => d }

/-- Concrete fixture: a handle over `migSchema`. -/
def migSet : RedisSet Nat :=
  { id := "key0", schema := migSchema, «namespace» := "ns", expirySeconds := none }

/-- C1, counterexample: a RedisSet constructed with a schema of type
"Employee", no id and no namespace gets the key `set-{employee-}-u1`
(empty namespace segment), not `set-{employee-default}-u1`: the
constructor coalesces a missing namespace to the empty string before
`newKey` reads it, so the `"default"` fallback inside `newKey` is
unreachable and the claimed key form is wrong. -/
theorem newKey_default_counterexample :
    (construct
      { id := none, schema := some empSchema, «namespace» := none,
        expirySeconds := none } "u1").id = "set-\x7bemployee-\x7d-u1"
    ∧ (construct
      { id := none, schema := some empSchema, «namespace» := none,
        expirySeconds := none } "u1").id ≠ "set-\x7bemployee-default\x7d-u1" := by
  exact ⟨rfl, by decide⟩

/-- C1, amended: for every RedisSet constructed without a caller-supplied
id, the generated key has the exact form `set-{<type>-<namespace>}-<u>`,
where `<type>` is the schema type lower-cased and truncated to 18
characters and `<namespace>` is the caller namespace, with the empty
string (not "default") standing in when the caller did not supply one. -/
theorem newKey_amended {α : Type} [Inhabited α] (sch : SchemaModel α)
    (nsOpt : Option String) (exp : Option Nat) (u : String) :
    (construct
      { id := none, schema := some sch, «namespace» := nsOpt,
        expirySeconds := exp } u).id
      = "set-\x7b" ++ strTake (strToLower sch.type) 18 ++ "-" ++ nsOpt.getD "" ++ "\x7d-" ++ u := by
  cases nsOpt <;> rfl

/-- C8: `onion` fails unconditionally with the plain Error of the source,
issues no store command (empty command list) and changes no state (it
receives no member set and returns none). -/
theorem onion_always_fails {α : Type} (self : RedisSet α)
    (setIds : List (SetOperand α)) :
    onion self setIds = ([], .error (.jsError "Onion error")) := rfl

/-- C10: the alias methods delegate to their primary operations and are
extensionally equal to them on every handle, member set and argument:
`get` equals `members`, `set` equals `add`, `has` equals `contains`, and
`clear` equals `delete`. -/
theorem alias_equivalence {α : Type} (self : RedisSet α) (membs : List String)
    (input : AddInput (Doc α)) (d : Doc α) :
    get self membs = members self membs
    ∧ set self membs input = add self membs input
    ∧ has self membs d = contains self membs d
    ∧ clear self = delete self :=
  ⟨rfl, rfl, rfl, rfl⟩

/-- C9, counterexample: `copyTo("")` does not store under the
caller-supplied id: the empty string is falsy, so the constructor replaces
it with a freshly generated key. -/
theorem copyTo_empty_id_counterexample :
    (copyTo migSet "" "u9").2.id = "set-\x7bemployee-ns\x7d-u9"
    ∧ (copyTo migSet "" "u9").2.id ≠ "" := by
  exact ⟨rfl, by decide⟩

/-- C9, amended: for every non-empty caller-supplied id, `copyTo(id)`
issues exactly one `sinterstore` from this set alone into `id` (an
intersect-store over the single source key) and returns a handle bound to
`id` sharing this collection schema, namespace and expiry. The equation
holds with no hypothesis relating the destination to the source namespace
or type, and `copyTo` is total (no error case), which is the claimed
absence of cross-slot validation. -/
theorem copyTo_amended {α : Type} [Inhabited α] (self : RedisSet α)
    (id u : String) (h : id ≠ "") :
    copyTo self id u =
      ([Cmd.sinterstore id [self.id]],
       { id := id, schema := self.schema, «namespace» := self.«namespace»,
         expirySeconds := self.expirySeconds }) := by
  simp [copyTo, construct, h]

/-- C9, witness: `copyTo_amended` applied to the fixture handle at the
concrete destination id "dest". -/
theorem copyTo_amended_witness :
    ("dest" ≠ "")
    ∧ copyTo migSet "dest" "u7" =
      ([Cmd.sinterstore "dest" ["key0"]],
       { id := "dest", schema := migSchema, «namespace» := "ns",
         expirySeconds := none }) :=
  ⟨by decide, copyTo_amended migSet "dest" "u7" (by decide)⟩

/-- A document below the top of the chain steps to the next version. -/
theorem upgradeStep_version (k : Skeema α) (d : Doc α)
    (h : d.version < k.versions.length) :
    (upgradeStep k d).version = d.version + 1 := by
  simp [upgradeStep, List.getElem?_eq_getElem h]

/-- The shape of one in-range upgrade step. -/
theorem upgradeStep_eq (k : Skeema α) (d : Doc α)
    (h : d.version < k.versions.length) :
    upgradeStep k d
      = { (k.versions[d.version]).upgradeFn d with version := d.version + 1 } := by
  simp [upgradeStep, List.getElem?_eq_getElem h]

/-- With enough fuel, iterating `upgradeStep` from any in-range version
lands exactly on the chain length. -/
theorem upgradeFuel_version (k : Skeema α) : ∀ (fuel : Nat) (d : Doc α),
    d.version ≤ k.versions.length → k.versions.length ≤ d.version + fuel →
    (upgradeFuel k fuel d).version = k.versions.length := by
  intro fuel
  induction fuel with
  | zero =>
    intro d h1 h2
    simp only [upgradeFuel]
    omega
  | succ n ih =>
    intro d h1 h2
    simp only [upgradeFuel]
    by_cases h : d.version < k.versions.length
    · rw [if_pos h]
      exact ih _ (by rw [upgradeStep_version k d h]; omega)
        (by rw [upgradeStep_version k d h]; omega)
    · rw [if_neg h]
      omega

/-- With enough fuel, the iterated upgrade equals the sequential fold of
the upgrade functions of the remaining versions (the spec wording). -/
theorem upgradeFuel_eq_spec (k : Skeema α) : ∀ (fuel : Nat) (d : Doc α),
    k.versions.length ≤ d.version + fuel →
    upgradeFuel k fuel d = specSequentialUpgrade k d := by
  intro fuel
  induction fuel with
  | zero =>
    intro d h
    have hdrop : k.versions.drop d.version = [] := List.drop_eq_nil_of_le (by omega)
    simp [upgradeFuel, specSequentialUpgrade, hdrop]
  | succ n ih =>
    intro d h
    simp only [upgradeFuel]
    by_cases hlt : d.version < k.versions.length
    · rw [if_pos hlt, ih _ (by rw [upgradeStep_version k d hlt]; omega)]
      unfold specSequentialUpgrade
      rw [upgradeStep_version k d hlt, List.drop_eq_getElem_cons hlt,
        List.foldl_cons, upgradeStep_eq k d hlt]
    · rw [if_neg hlt]
      have hdrop : k.versions.drop d.version = [] := List.drop_eq_nil_of_le (by omega)
      simp [specSequentialUpgrade, hdrop]

/-- C3: for every schema chain of length n and every document carrying a
version v with 1 <= v <= n that is valid at version v, upgrade returns the
sequential application of the upgrade functions of versions v+1 through n,
its version field equals n, and applying upgrade to the result again is a
no-op. The chain itself is modelled from the spec because the Skeema
implementation is not among the provided sources (only its tests are). -/
theorem skeemaUpgrade_chain (k : Skeema α) (d : Doc α)
    (h1 : 1 ≤ d.version) (h2 : d.version ≤ k.versions.length)
    (h3 : isValidAtVersion k d = true) :
    skeemaUpgrade k d = specSequentialUpgrade k d
    ∧ (skeemaUpgrade k d).version = k.versions.length
    ∧ skeemaUpgrade k (skeemaUpgrade k d) = skeemaUpgrade k d := by
  have hv : (skeemaUpgrade k d).version = k.versions.length :=
    upgradeFuel_version k _ d h2 (by omega)
  refine ⟨upgradeFuel_eq_spec k _ d (by omega), hv, ?_⟩
  have hout : skeemaUpgrade k (skeemaUpgrade k d)
      = upgradeFuel k (k.versions.length - (skeemaUpgrade k d).version)
          (skeemaUpgrade k d) := rfl
  rw [hout, hv, Nat.sub_self]
  rfl

/-- Concrete fixture: the three-version employee chain of the schema test
(identity, then a salary default of 30000, then a derived field modelled
as a doubling of the numeric payload). -/
def wSkeema : Skeema Nat :=
  ⟨[ { definition := fun d => decide (1 ≤ d.version), upgradeFn := fun d => d },
     { definition := fun _ => true, upgradeFn := fun d => { d with payload := d.payload + 30000 } },
     { definition := fun _ => true, upgradeFn := fun d => { d with payload := d.payload * 2 } } ]⟩

/-- Concrete fixture: a version-1 document for the chain above. -/
def wDocV1 : Doc Nat :=
  { id := "", type := "employee", version := 1, payload := 7 }

/-- C3, witness: the chain theorem applied to the three-version fixture
chain at a concrete valid version-1 document. -/
theorem skeemaUpgrade_chain_witness :
    (1 ≤ wDocV1.version ∧ wDocV1.version ≤ wSkeema.versions.length
      ∧ isValidAtVersion wSkeema wDocV1 = true)
    ∧ (skeemaUpgrade wSkeema wDocV1 = specSequentialUpgrade wSkeema wDocV1
      ∧ (skeemaUpgrade wSkeema wDocV1).version = wSkeema.versions.length
      ∧ skeemaUpgrade wSkeema (skeemaUpgrade wSkeema wDocV1)
          = skeemaUpgrade wSkeema wDocV1) :=
  ⟨⟨by decide, by decide, by decide⟩,
   skeemaUpgrade_chain wSkeema wDocV1 (by decide) (by decide) (by decide)⟩

/-- Unfolding equation for `mapThrow` on a cons cell. -/
theorem mapThrow_cons (f : β → Except ε γ) (x : β) (xs : List β) :
    mapThrow f (x :: xs)
      = match f x with
        | .error e => .error e
        | .ok y =>
          match mapThrow f xs with
          | .error e => .error e
          | .ok ys => .ok (y :: ys) := rfl

/-- A throwing map throws exactly when some element throws. -/
theorem mapThrow_error_iff (f : β → Except ε γ) (xs : List β) :
    (∃ e, mapThrow f xs = .error e) ↔ ∃ x ∈ xs, ∃ e, f x = .error e := by
  induction xs with
  | nil =>
    constructor
    · intro ⟨e, he⟩
      cases he
    · intro ⟨x, hx, _⟩
      cases hx
  | cons x xs ih =>
    cases hfx : f x with
    | error e =>
      have hm : mapThrow f (x :: xs) = .error e := by
        rw [mapThrow_cons, hfx]
      constructor
      · intro _
        exact ⟨x, List.mem_cons_self x xs, e, hfx⟩
      · intro _
        exact ⟨e, hm⟩
    | ok y =>
      cases hrec : mapThrow f xs with
      | error e =>
        have hm : mapThrow f (x :: xs) = .error e := by
          rw [mapThrow_cons, hfx, hrec]
        constructor
        · intro _
          obtain ⟨x2, hx2, e2, he2⟩ := ih.mp ⟨e, hrec⟩
          exact ⟨x2, List.mem_cons_of_mem x hx2, e2, he2⟩
        · intro _
          exact ⟨e, hm⟩
      | ok ys =>
        have hm : mapThrow f (x :: xs) = .ok (y :: ys) := by
          rw [mapThrow_cons, hfx, hrec]
        constructor
        · intro ⟨e, he⟩
          rw [hm] at he
          cases he
        · intro ⟨x2, hx2, e2, he2⟩
          rcases List.mem_cons.mp hx2 with h | h
          · subst h
            rw [hfx] at he2
            cases he2
          · obtain ⟨e3, he3⟩ := ih.mpr ⟨x2, h, e2, he2⟩
            rw [hrec] at he3
            cases he3

/-- The error a throwing map reports comes from one of its elements. -/
theorem mapThrow_error_mem (f : β → Except ε γ) (xs : List β) (e : ε)
    (h : mapThrow f xs = .error e) : ∃ x ∈ xs, f x = .error e := by
  induction xs with
  | nil => cases h
  | cons x xs ih =>
    rw [mapThrow_cons] at h
    cases hfx : f x with
    | error e2 =>
      rw [hfx] at h
      cases h
      exact ⟨x, List.mem_cons_self x xs, hfx⟩
    | ok y =>
      rw [hfx] at h
      cases hrec : mapThrow f xs with
      | error e2 =>
        rw [hrec] at h
        cases h
        obtain ⟨x2, hx2, he2⟩ := ih hrec
        exact ⟨x2, List.mem_cons_of_mem x hx2, he2⟩
      | ok ys =>
        rw [hrec] at h
        cases h

/-- An operand check throws exactly when the operand is a collection handle
mismatching this collection on namespace or schema type. -/
theorem checkOperand_error_iff (self : RedisSet α) (op : SetOperand α) :
    (∃ e, checkOperand self op = .error e) ↔ mismatches self op = true := by
  cases op with
  | key s =>
    simp [checkOperand, mismatches]
  | set st =>
    by_cases h1 : (st.«namespace» != self.«namespace») = true
    · simp [checkOperand, mismatches, h1]
    · by_cases h2 : (st.schema.type != self.schema.type) = true
      · simp [checkOperand, mismatches, h1, h2]
      · simp [checkOperand, mismatches, h1, h2]

/-- Every error an operand check throws is a CrossSlotError. -/
theorem checkOperand_error_crossSlot (self : RedisSet α) (op : SetOperand α)
    (e : TanceError) (h : checkOperand self op = .error e) :
    ∃ m, e = .crossSlotError m := by
  cases op with
  | key s => cases h
  | set st =>
    simp only [checkOperand] at h
    split at h
    · cases h
      exact ⟨crossNsMsg, rfl⟩
    · split at h
      · cases h
        exact ⟨crossTypeMsg, rfl⟩
      · cases h

/-- Raw string keys pass through `validateSetIds` unchecked and unchanged. -/
theorem validateSetIds_keys (self : RedisSet α) (ks : List String) :
    validateSetIds self (ks.map SetOperand.key) = .ok ks := by
  induction ks with
  | nil => rfl
  | cons x xs ih =>
    unfold validateSetIds at ih ⊢
    rw [List.map_cons, mapThrow_cons]
    simp only [checkOperand]
    rw [ih]

/-- When no collection operand mismatches, `validateSetIds` succeeds. -/
theorem validateSetIds_ok_of_no_mismatch (self : RedisSet α)
    (setIds : List (SetOperand α)) (h : setIds.any (mismatches self) = false) :
    ∃ keys, validateSetIds self setIds = .ok keys := by
  induction setIds with
  | nil => exact ⟨[], rfl⟩
  | cons op ops ih =>
    rw [List.any_cons, Bool.or_eq_false_iff] at h
    obtain ⟨h1, h2⟩ := h
    obtain ⟨keys, hk⟩ := ih h2
    have hop : ∃ s, checkOperand self op = .ok s := by
      cases op with
      | key s => exact ⟨s, rfl⟩
      | set st =>
        rw [mismatches, Bool.or_eq_false_iff] at h1
        obtain ⟨hn, ht⟩ := h1
        refine ⟨st.id, ?_⟩
        simp [checkOperand, hn, ht]
    obtain ⟨s, hs⟩ := hop
    refine ⟨s :: keys, ?_⟩
    unfold validateSetIds at hk ⊢
    rw [mapThrow_cons, hs, hk]

/-- C2: for every group operation (union, intersect, diff and their Store
and StoreAt variants) and every operand list: `validateSetIds` throws
exactly when some collection operand differs from this collection in
namespace or schema type, every such error is a CrossSlotError, raw string
keys pass through without any check, on a validation error every group
operation returns that error having issued no store command (the command
list is empty: the source evaluates `validateSetIds` while building the
argument list of the store call), and when every collection operand
matches on both fields validation succeeds and all nine operations succeed
with no CrossSlotError. -/
theorem groupOps_crossSlot_guard [Inhabited α] (self : RedisSet α)
    (setIds : List (SetOperand α)) (store : String → List String) (u id0 : String) :
    ((∃ e, validateSetIds self setIds = .error e)
        ↔ setIds.any (mismatches self) = true)
    ∧ (∀ e, validateSetIds self setIds = .error e → ∃ m, e = .crossSlotError m)
    ∧ (∀ ks : List String, validateSetIds self (ks.map SetOperand.key) = .ok ks)
    ∧ (∀ e, validateSetIds self setIds = .error e →
        union self setIds store = ([], .error e)
        ∧ unionStore self setIds u = ([], .error e)
        ∧ unionStoreAt self id0 setIds u = ([], .error e)
        ∧ intersect self setIds store = ([], .error e)
        ∧ intersectStore self setIds u = ([], .error e)
        ∧ intersectStoreAt self id0 setIds u = ([], .error e)
        ∧ diff self setIds store = ([], .error e)
        ∧ diffStore self setIds u = ([], .error e)
        ∧ diffStoreAt self id0 setIds u = ([], .error e))
    ∧ (setIds.any (mismatches self) = false →
        ∃ keys, validateSetIds self setIds = .ok keys
        ∧ (∃ r, (union self setIds store).2 = .ok r)
        ∧ (∃ r, (unionStore self setIds u).2 = .ok r)
        ∧ (∃ r, (unionStoreAt self id0 setIds u).2 = .ok r)
        ∧ (∃ r, (intersect self setIds store).2 = .ok r)
        ∧ (∃ r, (intersectStore self setIds u).2 = .ok r)
        ∧ (∃ r, (intersectStoreAt self id0 setIds u).2 = .ok r)
        ∧ (∃ r, (diff self setIds store).2 = .ok r)
        ∧ (∃ r, (diffStore self setIds u).2 = .ok r)
        ∧ (∃ r, (diffStoreAt self id0 setIds u).2 = .ok r)) := by
  refine ⟨?_, ?_, validateSetIds_keys self, ?_, ?_⟩
  · rw [validateSetIds, mapThrow_error_iff, List.any_eq_true]
    constructor
    · intro ⟨x, hx, hex⟩
      exact ⟨x, hx, (checkOperand_error_iff self x).mp hex⟩
    · intro ⟨x, hx, hmx⟩
      obtain ⟨e, he⟩ := (checkOperand_error_iff self x).mpr hmx
      exact ⟨x, hx, e, he⟩
  · intro e he
    obtain ⟨x, _, hex⟩ := mapThrow_error_mem (checkOperand self) setIds e he
    exact checkOperand_error_crossSlot self x e hex
  · intro e he
    refine ⟨?_, ?_, ?_, ?_, ?_, ?_, ?_, ?_, ?_⟩ <;>
      simp [union, unionStore, unionStoreAt, intersect, intersectStore,
        intersectStoreAt, diff, diffStore, diffStoreAt, he]
  · intro hno
    obtain ⟨keys, hk⟩ := validateSetIds_ok_of_no_mismatch self setIds hno
    have h1 : (union self setIds store).2
        = .ok (postpareAll self (sunionEval store (self.id :: keys))) := by
      simp [union, hk]
    have h2 : (unionStore self setIds u).2 = .ok (construct
        { id := none, schema := some self.schema,
          «namespace» := some self.«namespace»,
          expirySeconds := self.expirySeconds } u) := by
      simp [unionStore, hk]
    have h3 : (unionStoreAt self id0 setIds u).2 = .ok (construct
        { id := some id0, schema := some self.schema,
          «namespace» := some self.«namespace»,
          expirySeconds := self.expirySeconds } u) := by
      simp [unionStoreAt, hk]
    have h4 : (intersect self setIds store).2
        = .ok (postpareAll self (sinterEval store (self.id :: keys))) := by
      simp [intersect, hk]
    have h5 : (intersectStore self setIds u).2 = .ok (construct
        { id := none, schema := some self.schema,
          «namespace» := some self.«namespace»,
          expirySeconds := self.expirySeconds } u) := by
      simp [intersectStore, hk]
    have h6 : (intersectStoreAt self id0 setIds u).2 = .ok (construct
        { id := some id0, schema := some self.schema,
          «namespace» := some self.«namespace»,
          expirySeconds := self.expirySeconds } u) := by
      simp [intersectStoreAt, hk]
    have h7 : (diff self setIds store).2
        = .ok (postpareAll self (sdiffEval store (self.id :: keys))) := by
      simp [diff, hk]
    have h8 : (diffStore self setIds u).2 = .ok (construct
        { id := none, schema := some self.schema,
          «namespace» := some self.«namespace»,
          expirySeconds := self.expirySeconds } u) := by
      simp [diffStore, hk]
    have h9 : (diffStoreAt self id0 setIds u).2 = .ok (construct
        { id := some id0, schema := some self.schema,
          «namespace» := some self.«namespace»,
          expirySeconds := self.expirySeconds } u) := by
      simp [diffStoreAt, hk]
    exact ⟨keys, hk, ⟨_, h1⟩, ⟨_, h2⟩, ⟨_, h3⟩, ⟨_, h4⟩, ⟨_, h5⟩, ⟨_, h6⟩,
      ⟨_, h7⟩, ⟨_, h8⟩, ⟨_, h9⟩⟩

/-- Concrete fixture: a handle in namespace ns1. -/
def wSelfA : RedisSet Nat :=
  { id := "a1", schema := empSchema, «namespace» := "ns1", expirySeconds := none }

/-- Concrete fixture: a handle with the same schema type in namespace ns2. -/
def wSelfB : RedisSet Nat :=
  { id := "b1", schema := empSchema, «namespace» := "ns2", expirySeconds := none }

/-- C2, witness: unioning the ns1 handle with the ns2 handle trips the
guard, so `validateSetIds` throws. -/
theorem groupOps_crossSlot_guard_witness :
    ([SetOperand.set wSelfB].any (mismatches wSelfA) = true)
    ∧ (∃ e, validateSetIds wSelfA [SetOperand.set wSelfB] = .error e) :=
  ⟨by decide,
   (groupOps_crossSlot_guard wSelfA [SetOperand.set wSelfB] (fun _ => []) "u" "k").1.mpr
     (by decide)⟩

/-- `prepare` on a document whose stamped form validates. -/
theorem prepare_ok (self : RedisSet α) (d : Doc α)
    (h : self.schema.isValid (stampDoc self d) = true) :
    prepare self d
      = .ok (stampDoc self d, self.schema.serializationFn (stampDoc self d)) := by
  simp [prepare, h]

/-- `prepare` on a document whose stamped form fails validation. -/
theorem prepare_error (self : RedisSet α) (d : Doc α)
    (h : self.schema.isValid (stampDoc self d) = false) :
    prepare self d = .error (.documentValidationError (prepErrMsg self d)) := by
  simp [prepare, h]

/-- `prepare` throws exactly when the stamped document fails validation. -/
theorem prepare_error_iff (self : RedisSet α) (d : Doc α) :
    (∃ e, prepare self d = .error e)
      ↔ self.schema.isValid (stampDoc self d) = false := by
  cases h : self.schema.isValid (stampDoc self d) with
  | false => simp [prepare_error self d h]
  | true =>
    rw [prepare_ok self d h]
    constructor
    · intro ⟨e, he⟩
      cases he
    · intro hf
      cases hf

/-- The only error `prepare` throws is its DocumentValidationError. -/
theorem prepare_error_docval (self : RedisSet α) (d : Doc α) (e : TanceError)
    (h : prepare self d = .error e) :
    e = .documentValidationError (prepErrMsg self d) := by
  cases hv : self.schema.isValid (stampDoc self d) with
  | true =>
    rw [prepare_ok self d hv] at h
    cases h
  | false =>
    rw [prepare_error self d hv] at h
    cases h
    rfl

/-- Mapping `prepare` over an all-valid batch succeeds elementwise. -/
theorem mapThrow_prepare_ok (self : RedisSet α) (ds : List (Doc α))
    (h : ∀ d ∈ ds, self.schema.isValid (stampDoc self d) = true) :
    mapThrow (prepare self) ds
      = .ok (ds.map (fun d =>
          (stampDoc self d, self.schema.serializationFn (stampDoc self d)))) := by
  induction ds with
  | nil => rfl
  | cons d ds ih =>
    rw [List.map_cons, mapThrow_cons, prepare_ok self d (h d (List.mem_cons_self d ds)),
      ih (fun x hx => h x (List.mem_cons_of_mem d hx))]

/-- C5, counterexample: on a version-aware schema, `add` does not return
the original input unchanged: a version-1 document comes back with its
id, type and version overwritten by the stamping `prepare` performs in
place before serializing (the insertion itself succeeds). -/
theorem add_returns_stamped_counterexample :
    (add migSet [] (.one { id := "", type := "", version := 1, payload := 7 })).2
      = .ok (["7:2"], .one { id := "key0", type := "employee", version := 2, payload := 7 })
    ∧ (AddInput.one { id := "key0", type := "employee", version := 2, payload := 7 }
        : AddInput (Doc Nat))
      ≠ .one { id := "", type := "", version := 1, payload := 7 } := by
  exact ⟨rfl, by decide⟩

/-- C5, amended: `add(doc)` raises DocumentValidationError if and only if
the input is null or some document among its elements fails schema
validation in `prepare` (validation runs on the stamped document); those
are the only errors, and an erroring `add` issues no store command. On
success a single batch `sadd` carries the prepared members, the TTL is
refreshed, and the call returns the input document(s) as mutated in place
by the metadata stamping of `prepare` (so unchanged exactly when the
schema is not version-aware or the stamp is already in place, not in
general). -/
theorem add_amended (self : RedisSet α) (membs : List String)
    (input : AddInput (Doc α)) :
    ((∃ e, (add self membs input).2 = .error e)
        ↔ (input = .nullDoc
           ∨ ∃ d ∈ addInputDocs input, self.schema.isValid (stampDoc self d) = false))
    ∧ (∀ e, (add self membs input).2 = .error e → ∃ m, e = .documentValidationError m)
    ∧ (∀ e, (add self membs input).2 = .error e → (add self membs input).1 = [])
    ∧ (∀ d, input = .one d → self.schema.isValid (stampDoc self d) = true →
        add self membs input
          = (Cmd.sadd self.id [self.schema.serializationFn (stampDoc self d)]
               :: refreshExpiryCmds self,
             .ok (insertAll membs [self.schema.serializationFn (stampDoc self d)],
                  .one (stampDoc self d))))
    ∧ (∀ ds, input = .many ds →
        (∀ d ∈ ds, self.schema.isValid (stampDoc self d) = true) →
        add self membs input
          = (Cmd.sadd self.id
               (ds.map (fun d => self.schema.serializationFn (stampDoc self d)))
               :: refreshExpiryCmds self,
             .ok (insertAll membs
                    (ds.map (fun d => self.schema.serializationFn (stampDoc self d))),
                  .many (ds.map (stampDoc self))))) := by
  cases input with
  | nullDoc =>
    refine ⟨?_, ?_, ?_, ?_, ?_⟩
    · constructor
      · intro _
        exact Or.inl rfl
      · intro _
        exact ⟨_, rfl⟩
    · intro e he
      cases he
      exact ⟨_, rfl⟩
    · intro e _
      rfl
    · intro d hd
      cases hd
    · intro ds hds
      cases hds
  | one d =>
    cases hv : self.schema.isValid (stampDoc self d) with
    | true =>
      have heq : add self membs (.one d)
          = (Cmd.sadd self.id [self.schema.serializationFn (stampDoc self d)]
               :: refreshExpiryCmds self,
             .ok (insertAll membs [self.schema.serializationFn (stampDoc self d)],
                  .one (stampDoc self d))) := by
        simp [add, prepare_ok self d hv]
      refine ⟨?_, ?_, ?_, ?_, ?_⟩
      · rw [heq]
        constructor
        · intro ⟨e, he⟩
          cases he
        · intro hr
          rcases hr with h | ⟨d2, hd2, hvd2⟩
          · cases h
          · rw [show addInputDocs (AddInput.one d) = [d] from rfl,
              List.mem_singleton] at hd2
            subst hd2
            rw [hv] at hvd2
            cases hvd2
      · intro e he
        rw [heq] at he
        cases he
      · intro e he
        rw [heq] at he
        cases he
      · intro d2 hd2 _
        injection hd2 with h
        subst h
        exact heq
      · intro ds hds
        cases hds
    | false =>
      have heq : add self membs (.one d)
          = ([], .error (.documentValidationError (prepErrMsg self d))) := by
        simp [add, prepare_error self d hv]
      refine ⟨?_, ?_, ?_, ?_, ?_⟩
      · rw [heq]
        constructor
        · intro _
          refine Or.inr ⟨d, ?_, hv⟩
          rw [show addInputDocs (AddInput.one d) = [d] from rfl]
          exact List.mem_singleton.mpr rfl
        · intro _
          exact ⟨_, rfl⟩
      · intro e he
        rw [heq] at he
        cases he
        exact ⟨_, rfl⟩
      · intro e _
        rw [heq]
      · intro d2 hd2 hv2
        injection hd2 with h
        subst h
        rw [hv] at hv2
        cases hv2
      · intro ds hds
        cases hds
  | many ds =>
    by_cases hall : ∀ d ∈ ds, self.schema.isValid (stampDoc self d) = true
    · have heq : add self membs (.many ds)
          = (Cmd.sadd self.id
               (ds.map (fun d => self.schema.serializationFn (stampDoc self d)))
               :: refreshExpiryCmds self,
             .ok (insertAll membs
                    (ds.map (fun d => self.schema.serializationFn (stampDoc self d))),
                  .many (ds.map (stampDoc self)))) := by
        simp only [add, mapThrow_prepare_ok self ds hall, List.map_map]
        rfl
      refine ⟨?_, ?_, ?_, ?_, ?_⟩
      · rw [heq]
        constructor
        · intro ⟨e, he⟩
          cases he
        · intro hr
          rcases hr with h | ⟨d2, hd2, hvd2⟩
          · cases h
          · rw [show addInputDocs (AddInput.many ds) = ds from rfl] at hd2
            rw [hall d2 hd2] at hvd2
            cases hvd2
      · intro e he
        rw [heq] at he
        cases he
      · intro e he
        rw [heq] at he
        cases he
      · intro d hd
        cases hd
      · intro ds2 hds2 _
        injection hds2 with h
        subst h
        exact heq
    · push_neg at hall
      obtain ⟨d0, hd0, hv0⟩ := hall
      have hv0f : self.schema.isValid (stampDoc self d0) = false :=
        Bool.eq_false_iff.mpr hv0
      obtain ⟨e0, he0⟩ : ∃ e, mapThrow (prepare self) ds = .error e :=
        (mapThrow_error_iff (prepare self) ds).mpr
          ⟨d0, hd0, (prepare_error_iff self d0).mpr hv0f⟩
      have heq : add self membs (.many ds) = ([], .error e0) := by
        simp [add, he0]
      have hshape : ∃ m, e0 = TanceError.documentValidationError m := by
        obtain ⟨x, _, hpx⟩ := mapThrow_error_mem (prepare self) ds e0 he0
        exact ⟨prepErrMsg self x, prepare_error_docval self x e0 hpx⟩
      refine ⟨?_, ?_, ?_, ?_, ?_⟩
      · rw [heq]
        constructor
        · intro _
          exact Or.inr ⟨d0, hd0, hv0f⟩
        · intro _
          exact ⟨_, rfl⟩
      · intro e he
        rw [heq] at he
        cases he
        exact hshape
      · intro e _
        rw [heq]
      · intro d hd
        cases hd
      · intro ds2 hds2 hall2
        injection hds2 with h
        subst h
        rw [hall2 d0 hd0] at hv0f
        cases hv0f

/-- C5, witness: `add_amended` applied to the migrating fixture at a
concrete valid single document. -/
theorem add_amended_witness :
    (migSet.schema.isValid (stampDoc migSet wDocV1) = true)
    ∧ add migSet [] (.one wDocV1)
        = (Cmd.sadd migSet.id [migSet.schema.serializationFn (stampDoc migSet wDocV1)]
             :: refreshExpiryCmds migSet,
           .ok (insertAll [] [migSet.schema.serializationFn (stampDoc migSet wDocV1)],
                .one (stampDoc migSet wDocV1))) :=
  ⟨by decide, (add_amended migSet [] (.one wDocV1)).2.2.2.1 wDocV1 rfl (by decide)⟩

/-- C6: `postpare(null)` returns null, and every non-null serialized
member comes back deserialized and passed through the schema upgrade; the
five read operations (members, randmember, union, intersect, diff) each
return exactly the `postpare` image of the strings the store produced; and
whenever the schema upgrade is the chain upgrade (modelled from the spec,
the Skeema implementation being absent from the provided sources), every
document a read operation returns carries the chain's latest version,
provided each stored member deserializes to a version at most the chain
length (which holds for members written through `prepare`, since the
stamp is `currentVersion`). -/
theorem postpare_latest_version [Inhabited α] (self : RedisSet α) (k : Skeema α)
    (membs sample : List String) (n : Nat) :
    postpare self none = none
    ∧ (∀ s, postpare self (some s)
        = some (self.schema.upgrade (self.schema.deserializationFn s)))
    ∧ (members self membs).2 = postpareAll self membs
    ∧ (randmember self n sample).2 = postpareAll self sample
    ∧ (∀ (setIds : List (SetOperand α)) store keys,
        validateSetIds self setIds = .ok keys →
        (union self setIds store).2
          = .ok (postpareAll self (sunionEval store (self.id :: keys)))
        ∧ (intersect self setIds store).2
          = .ok (postpareAll self (sinterEval store (self.id :: keys)))
        ∧ (diff self setIds store).2
          = .ok (postpareAll self (sdiffEval store (self.id :: keys))))
    ∧ (self.schema.upgrade = skeemaUpgrade k →
        ∀ l : List String,
          (∀ s ∈ l, (self.schema.deserializationFn s).version ≤ k.versions.length) →
          ∀ o ∈ postpareAll self l,
            ∃ d, o = some d ∧ d.version = k.versions.length) := by
  refine ⟨rfl, fun s => rfl, rfl, rfl, ?_, ?_⟩
  · intro setIds store keys hk
    exact ⟨by simp [union, hk], by simp [intersect, hk], by simp [diff, hk]⟩
  · intro hup l hle o ho
    obtain ⟨s, hs, rfl⟩ := List.mem_map.mp ho
    refine ⟨self.schema.upgrade (self.schema.deserializationFn s), rfl, ?_⟩
    have h1 := hle s hs
    rw [hup]
    exact upgradeFuel_version k _ _ h1 (by omega)

/-- Concrete fixture: a version-aware schema whose upgrade is the chain
upgrade of the three-version fixture chain. -/
def wSkSchema : SchemaModel Nat :=
  { type := "emp"
    isMigrating := true
    currentVersion := 3
    isValid := fun _ => true
    errors := fun _ => ""
    serializationFn := fun d => toString d.payload
    deserializationFn := fun s => { id := "", type := "emp", version := 1, payload := s.length }
    upgrade := skeemaUpgrade wSkeema }

/-- Concrete fixture: a handle over the chain-upgrading schema. -/
def wSkSelf : RedisSet Nat :=
  { id := "sk1", schema := wSkSchema, «namespace» := "ns", expirySeconds := none }

/-- C6, witness: a member serialized at version 1 is read back at the
chain's latest version 3. -/
theorem postpare_latest_version_witness :
    ((wSkSelf.schema.upgrade = skeemaUpgrade wSkeema)
      ∧ ∀ s ∈ ["x"], (wSkSelf.schema.deserializationFn s).version
          ≤ wSkeema.versions.length)
    ∧ ∃ d, postpare wSkSelf (some "x") = some d
        ∧ d.version = wSkeema.versions.length := by
  refine ⟨⟨rfl, by decide⟩, ?_⟩
  exact (postpare_latest_version wSkSelf wSkeema [] [] 0).2.2.2.2.2 rfl ["x"]
    (by decide) (postpare wSkSelf (some "x")) (List.mem_map.mpr ⟨"x", by simp, rfl⟩)

/-- C7: adding a valid document and then removing the same document leaves
the member set without the serialized member corresponding to it, so a
subsequent `members()` (which maps `postpare` over exactly the stored
strings) contains nothing derived from it: both calls serialize through
the same `prepare`, which stamps idempotently, so `rem` removes precisely
the string `add` inserted. -/
theorem addRem_cancel (self : RedisSet α) (membs : List String) (d : Doc α)
    (h : self.schema.isValid (stampDoc self d) = true) :
    ∃ st1 st2,
      (add self membs (.one d)).2 = .ok (st1, .one (stampDoc self d))
      ∧ (rem self st1 d).2 = .ok (st2, stampDoc self d)
      ∧ self.schema.serializationFn (stampDoc self d) ∉ st2
      ∧ (members self st2).2 = postpareAll self st2 := by
  refine ⟨insertAll membs [self.schema.serializationFn (stampDoc self d)],
    (insertAll membs [self.schema.serializationFn (stampDoc self d)]).filter
      (fun x => x != self.schema.serializationFn (stampDoc self d)),
    ?_, ?_, ?_, rfl⟩
  · simp [add, prepare_ok self d h]
  · simp [rem, prepare_ok self d h]
  · intro hmem
    have h2 := (List.mem_filter.mp hmem).2
    simp at h2

/-- C7, witness: `addRem_cancel` on the migrating fixture at a concrete
valid document. -/
theorem addRem_cancel_witness :
    (migSet.schema.isValid (stampDoc migSet wDocV1) = true)
    ∧ ∃ st1 st2,
      (add migSet [] (.one wDocV1)).2 = .ok (st1, .one (stampDoc migSet wDocV1))
      ∧ (rem migSet st1 wDocV1).2 = .ok (st2, stampDoc migSet wDocV1)
      ∧ migSet.schema.serializationFn (stampDoc migSet wDocV1) ∉ st2
      ∧ (members migSet st2).2 = postpareAll migSet st2 :=
  ⟨by decide, addRem_cancel migSet [] wDocV1 (by decide)⟩

/-- Concrete fixture: a schema that rejects every document whose payload
is non-zero, to make a converging call of `modify` fail. -/
def bugSchema : SchemaModel Nat :=
  { type := "employee"
    isMigrating := false
    currentVersion := 1
    isValid := fun d => d.payload == 0
    errors := fun _ => "payload must be zero"
    serializationFn := fun d => toString d.payload
    deserializationFn := fun s => { id := "", type := "employee", version := 1, payload := s.length }
    upgrade := fun d => d }

/-- Concrete fixture: a handle over the rejecting schema. -/
def bugSet : RedisSet Nat :=
  { id := "k1", schema := bugSchema, «namespace» := "ns", expirySeconds := none }

/-- Concrete fixture: a document the rejecting schema refuses. -/
def badDoc : Doc Nat :=
  { id := "x", type := "employee", version := 1, payload := 1 }

/-- C4, code bug, evaluated at the failing input: on an empty collection,
`modify` with a change function introducing a single schema-invalid
document starts a converging `add` that fails with
DocumentValidationError, yet `modify` still completes normally, returning
`{original, changed}` with the store untouched beyond the snapshot read.
In the source the failure is unobservable by design of a slip: the
converging calls are started inside `map` callbacks written with block
bodies (`(itemToAdd) => {this.add(itemToAdd)}`), which return `undefined`
rather than the started promises, so `promises` is an array of
`undefined`, `Promise.all(promises)` resolves immediately, and rejections
of the converging calls are discarded instead of failing `modify` as the
spec requires. -/
theorem modify_swallows_convergence_failure :
    (modify bugSet [] (fun _ => [badDoc])).outcomes
      = [.error (.documentValidationError
          "Cant create new object, schema error: payload must be zero")]
    ∧ (modify bugSet [] (fun _ => [badDoc])).original = []
    ∧ (modify bugSet [] (fun _ => [badDoc])).changed = [badDoc]
    ∧ (modify bugSet [] (fun _ => [badDoc])).membs = []
    ∧ (modify bugSet [] (fun _ => [badDoc])).cmds = [Cmd.smembers "k1"] := by
  exact ⟨rfl, rfl, rfl, rfl, rfl⟩

end RedisTance
